import Mathlib

/-!
Verification of the `solana-listener` repository (`src/main.rs`) against its
natural-language specification.

The development shallowly embeds the program: strings are modelled as their
UTF-8 byte lists (`List Nat`, every entry a byte), the BLS12-381 scalar field
element produced by `blstrs::Scalar` is modelled by its canonical natural
number value, SHA-256 is embedded in full, and the bellman/groth16 calls are
modelled at the API boundary used by the program (synthesis of the circuit,
randomized parameter generation, randomized proving), with the random number
generator modelled as an explicit counter.  Rust panics (`unwrap`/`expect`)
are modelled by the `Except` error channel: an error reaching the top level
is a process abort.
-/

namespace SolanaListener

/-- Byte list of an ASCII string literal (all strings handled by the program
in the verified scenarios are ASCII, where UTF-8 bytes coincide with
code points). -/
def ascii (s : String) : List Nat := s.data.map Char.toNat

/-- Decimal digits of a natural number as ASCII bytes, as produced by Rust's
`format!("{}", n)`. -/
def natAscii (n : Nat) : List Nat := (Nat.repr n).data.map Char.toNat

/-- Little-endian value of a byte list (first byte is least significant). -/
def leVal (bs : List Nat) : Nat := bs.foldr (fun b acc => b + 256 * acc) 0

/-- Little-endian encoding of a value on `n` bytes. -/
def leBytes : Nat → Nat → List Nat
  | 0, _ => []
  | n + 1, v => (v % 256) :: leBytes n (v / 256)

/-- Big-endian encoding of a value on `n` bytes. -/
def beBytes : Nat → Nat → List Nat
  | 0, _ => []
  | n + 1, v => beBytes n (v / 256) ++ [v % 256]

/-! ## SHA-256 (`sha2::Sha256`), embedded over natural numbers modulo 2^32 -/

/-- Word mask `2^32 - 1`. -/
def mask32 : Nat := 4294967295

/-- Right rotation of a 32-bit word. -/
def rotr32 (n x : Nat) : Nat := ((x >>> n) ||| (x <<< (32 - n))) &&& mask32

/-- The Σ0 function of the SHA-256 compression. -/
def bSig0 (x : Nat) : Nat := rotr32 2 x ^^^ rotr32 13 x ^^^ rotr32 22 x

/-- The Σ1 function of the SHA-256 compression. -/
def bSig1 (x : Nat) : Nat := rotr32 6 x ^^^ rotr32 11 x ^^^ rotr32 25 x

/-- The σ0 function of the SHA-256 message schedule. -/
def sSig0 (x : Nat) : Nat := rotr32 7 x ^^^ rotr32 18 x ^^^ (x >>> 3)

/-- The σ1 function of the SHA-256 message schedule. -/
def sSig1 (x : Nat) : Nat := rotr32 17 x ^^^ rotr32 19 x ^^^ (x >>> 10)

/-- The Ch function of the SHA-256 compression. -/
def chF (x y z : Nat) : Nat := (x &&& y) ^^^ ((x ^^^ mask32) &&& z)

/-- The Maj function of the SHA-256 compression. -/
def majF (x y z : Nat) : Nat := (x &&& y) ^^^ (x &&& z) ^^^ (y &&& z)

/-- The 64 SHA-256 round constants (FIPS 180-4, written in decimal). -/
def shaK : List Nat :=
  [1116352408, 1899447441, 3049323471, 3921009573, 961987163,
   1508970993, 2453635748, 2870763221, 3624381080, 310598401,
   607225278, 1426881987, 1925078388, 2162078206, 2614888103,
   3248222580, 3835390401, 4022224774, 264347078, 604807628,
   770255983, 1249150122, 1555081692, 1996064986, 2554220882,
   2821834349, 2952996808, 3210313671, 3336571891, 3584528711,
   113926993, 338241895, 666307205, 773529912, 1294757372,
   1396182291, 1695183700, 1986661051, 2177026350, 2456956037,
   2730485921, 2820302411, 3259730800, 3345764771, 3516065817,
   3600352804, 4094571909, 275423344, 430227734, 506948616,
   659060556, 883997877, 958139571, 1322822218, 1537002063,
   1747873779, 1955562222, 2024104815, 2227730452, 2361852424,
   2428436474, 2756734187, 3204031479, 3329325298]

/-- The SHA-256 initial hash state (FIPS 180-4, written in decimal). -/
def shaH0 : List Nat :=
  [1779033703, 3144134277, 1013904242, 2773480762,
   1359893119, 2600822924, 528734635, 1541459225]

/-- Group a byte list into big-endian 32-bit words (groups of four bytes). -/
def toWordsBE : List Nat → List Nat
  | b0 :: b1 :: b2 :: b3 :: rest =>
      (((b0 * 256 + b1) * 256 + b2) * 256 + b3) :: toWordsBE rest
  | _ => []

/-- Append the next word of the SHA-256 message schedule. -/
def schedStep (w : List Nat) : List Nat :=
  let n := w.length
  let get := fun (k : Nat) => w.getD (n - k) 0
  w ++ [(sSig1 (get 2) + get 7 + sSig0 (get 15) + get 16) % 4294967296]

/-- Extend the message schedule by `n` further words. -/
def buildW : Nat → List Nat → List Nat
  | 0, w => w
  | n + 1, w => buildW n (schedStep w)

/-- One round of the SHA-256 compression on the eight-word working state. -/
def compressStep (st : List Nat) (kw : Nat × Nat) : List Nat :=
  match st with
  | [a, b, c, d, e, f, g, h] =>
      let t1 := (h + bSig1 e + chF e f g + kw.1 + kw.2) % 4294967296
      let t2 := (bSig0 a + majF a b c) % 4294967296
      [(t1 + t2) % 4294967296, a, b, c, (d + t1) % 4294967296, e, f, g]
  | _ => st

/-- Compress one 64-byte chunk into the running hash state. -/
def compressChunk (h : List Nat) (chunk : List Nat) : List Nat :=
  let w := buildW 48 (toWordsBE chunk)
  let st := (shaK.zip w).foldl compressStep h
  (h.zip st).map (fun p => (p.1 + p.2) % 4294967296)

/-- SHA-256 padding: `0x80`, zeros to 56 mod 64, then the bit length on
eight big-endian bytes. -/
def padMsg (msg : List Nat) : List Nat :=
  let L := msg.length
  msg ++ [128] ++ List.replicate ((119 - L % 64) % 64) 0 ++ beBytes 8 (L * 8)

/-- Split a list into 64-element chunks, with explicit fuel so that the
definition reduces in the kernel. -/
def chunksGo : Nat → List Nat → List (List Nat)
  | 0, _ => []
  | _ + 1, [] => []
  | n + 1, l => l.take 64 :: chunksGo n (l.drop 64)

/-- 64-byte chunks of a (padded) byte list. -/
def chunks64 (l : List Nat) : List (List Nat) := chunksGo l.length l

/-- SHA-256 digest (32 bytes, in the order the algorithm emits them) of a
byte list. -/
def sha256 (msg : List Nat) : List Nat :=
  ((chunks64 (padMsg msg)).foldl compressChunk shaH0).flatMap (beBytes 4)

/-! ## The scalar field of `blstrs` (`Scalar`, the BLS12-381 scalar field)

A field element is modelled by its canonical natural number value (the program
performs no field arithmetic: it only converts byte representations to field
elements and back).  `Scalar::from_repr` accepts a 32-byte little-endian
representation exactly when its value is below the modulus; `Scalar::to_repr`
emits the canonical value on 32 little-endian bytes; `Scalar::ZERO` is `0`. -/

/-- Modulus of the BLS12-381 scalar field
(`0x73eda753299d7d483339d80809a1d80553bda402fffe5bfeffffffff00000001`). -/
def rFr : Nat := 52435875175126190479447740508185965837690552500527637822603658699938581184513

/-- Model of `Fr::from_repr` on 32 little-endian bytes: defined exactly when
the value is canonical (below the modulus). -/
def frFromRepr (bytes : List Nat) : Option Nat :=
  if leVal bytes < rFr then some (leVal bytes) else none

/-- Model of `Fr::to_repr`: the canonical value on 32 little-endian bytes. -/
def frToRepr (x : Nat) : List Nat := leBytes 32 x

/-- Embedding of `str_to_fr` (src/main.rs lines 94-101): SHA-256 of the
string's bytes, interpreted as a field representation, with fallback to
`Fr::ZERO` when the digest is not canonical. -/
def str_to_fr (s : List Nat) : Option Nat :=
  some ((frFromRepr (sha256 s)).getD 0)

/-- The field element a string encodes to (`str_to_fr` always returns `some`;
this is the contained value). -/
def frOfStr (s : List Nat) : Nat := (frFromRepr (sha256 s)).getD 0

/-! ## Data model (src/main.rs lines 16-33) -/

/-- Embedding of the `TransactionProof` record (lines 16-20). -/
structure TransactionProof where
  transaction_hash : List Nat
  proof : List Nat
deriving DecidableEq, Repr

/-- Embedding of the `BlockProof` record (lines 22-27). -/
structure BlockProof where
  slot : Nat
  block_hash : List Nat
  transactions : List TransactionProof
deriving DecidableEq, Repr

/-- Modelled from the spec: the `solana_transaction_status::EncodedTransaction`
value carried by a fetched block.  The crate (outside this repository) has a
`Json` variant exposing the signature list directly, and binary variants
(`LegacyBinary`, `Binary`, `Accounts`) whose encoded payload still contains the
transaction's signatures (spec section 6: every transaction exposes
zero-or-more signature strings); the latter are modelled by `notJson` carrying
those signatures, which `main` never reads. -/
inductive EncodedTransaction where
  | json (signatures : List (List Nat))
  | notJson (signatures : List (List Nat))
deriving DecidableEq, Repr

/-- The transaction-with-metadata wrapper: `main` only reads the
`transaction` field. -/
structure EncodedTransactionWithStatusMeta where
  transaction : EncodedTransaction
deriving DecidableEq, Repr

/-- A fetched block, as `main` reads it: a block-hash string and the
transaction list. -/
structure Block where
  blockhash : List Nat
  transactions : List EncodedTransactionWithStatusMeta
deriving DecidableEq, Repr

/-- Concatenated signature lists of the JSON-encoded transactions, in order —
exactly the signatures the `main` loop iterates over (lines 140-160). -/
def jsonSigsL : List EncodedTransactionWithStatusMeta → List (List Nat)
  | [] => []
  | t :: rest =>
    match t.transaction with
    | .json sigs => sigs ++ jsonSigsL rest
    | .notJson _ => jsonSigsL rest

/-- The JSON-exposed signatures of a block. -/
def jsonSignatures (b : Block) : List (List Nat) := jsonSigsL b.transactions

/-- Stated from the spec's words (claim C4: "the concatenation of the source
block's transaction-signature lists"): all signatures of all transactions,
regardless of encoding. -/
def specAllSignatures (b : Block) : List (List Nat) :=
  b.transactions.flatMap (fun t =>
    match t.transaction with
    | .json sigs => sigs
    | .notJson sigs => sigs)

/-! ## Constraint system and the circuit (src/main.rs lines 29-67)

The bellman `ConstraintSystem` is modelled by the list of R1CS constraints fed
to `enforce` and the number of allocated variables.  `alloc` evaluates its
value closure only in witness mode (during proving); during parameter
generation (`KeypairAssembly`) the closure is ignored, which is why the
shape-only circuit with `None` values synthesizes successfully. -/

/-- A constraint-system wire: the fixed `CS::one()` wire or an allocated
auxiliary variable. -/
inductive Var where
  | one
  | aux (n : Nat)
deriving DecidableEq, Repr

/-- One R1CS constraint `a * b = c`; each side is a linear combination given
as coefficient terms. -/
structure Constraint where
  a : List (Var × Nat)
  b : List (Var × Nat)
  c : List (Var × Nat)
deriving DecidableEq, Repr

/-- The constraint-system state accumulated by `synthesize`. -/
structure ConstraintSys where
  nAux : Nat
  constraints : List Constraint
deriving DecidableEq, Repr

/-- The constraint system before synthesis. -/
def emptyCS : ConstraintSys := ⟨0, []⟩

/-- Embedding of `bellman::SynthesisError` (only the variant this program can
produce). -/
inductive SynthesisError where
  | assignmentMissing
deriving DecidableEq, Repr

/-- Model of `cs.alloc`: in witness mode the value closure is evaluated and a
missing assignment is an error; in setup mode the closure is ignored. -/
def csAlloc (witnessMode : Bool) (cs : ConstraintSys) (v : Option Nat) :
    Except SynthesisError (Var × ConstraintSys) :=
  if witnessMode then
    match v with
    | none => .error .assignmentMissing
    | some _ => .ok (Var.aux cs.nAux, ⟨cs.nAux + 1, cs.constraints⟩)
  else .ok (Var.aux cs.nAux, ⟨cs.nAux + 1, cs.constraints⟩)

/-- Embedding of the `BlockCircuit` struct (lines 30-33). -/
structure BlockCircuit where
  block_hash : Option Nat
  transaction_hashes : List (Option Nat)

/-- Embedding of `BlockCircuit::synthesize` (lines 36-66): allocate the block
hash, hash the present transaction-hash representations with (native) SHA-256,
convert the digest to a field element with zero fallback, and enforce the
single constraint `block_hash_var * 1 = result_hash_fr * 1`. -/
def BlockCircuit.synthesize (c : BlockCircuit) (witnessMode : Bool)
    (cs : ConstraintSys) : Except SynthesisError ConstraintSys :=
  match csAlloc witnessMode cs c.block_hash with
  | .error e => .error e
  | .ok (block_hash_var, cs1) =>
    let result_hash := sha256 ((c.transaction_hashes.filterMap id).flatMap frToRepr)
    let result_hash_fr := (frFromRepr result_hash).getD 0
    .ok ⟨cs1.nAux, cs1.constraints ++
          [⟨[(block_hash_var, 1)], [(Var.one, 1)], [(Var.one, result_hash_fr)]⟩]⟩

/-! ## The groth16 layer (src/main.rs lines 69-92)

`generate_random_parameters` and `create_random_proof` are external bellman
functions; they are modelled at the boundary the program uses: both synthesize
the given circuit (without and with witness evaluation respectively), both are
randomized — the random number generator is an explicit counter and each draw
is one counter value — and the parameters produced by a setup are stamped with
the draw that created them (their "generation"), so that distinct setup calls
yield distinguishable parameter sets. -/

/-- Model of `groth16::Parameters`: the circuit shape it was generated for and
the randomness draw ("generation") that created it. -/
structure Params where
  shape : Nat
  gen : Nat
deriving DecidableEq, Repr

/-- Model of a groth16 proof object: the generation of the parameter set it
was created against and its own randomness draw. -/
structure GrothProof where
  paramsGen : Nat
  nonce : Nat
deriving DecidableEq, Repr

/-- Model of `groth16::generate_random_parameters`: synthesize the circuit in
setup mode and emit a freshly-generated parameter set for this shape. -/
def generate_random_parameters (c : BlockCircuit) (rng : Nat) :
    Except SynthesisError (Params × Nat) :=
  match c.synthesize false emptyCS with
  | .error e => .error e
  | .ok _ => .ok (⟨c.transaction_hashes.length, rng⟩, rng + 1)

/-- Model of `groth16::create_random_proof`: synthesize the circuit in witness
mode and emit a randomized proof bound to the supplied parameter set. -/
def create_random_proof (c : BlockCircuit) (p : Params) (rng : Nat) :
    Except SynthesisError (GrothProof × Nat) :=
  match c.synthesize true emptyCS with
  | .error e => .error e
  | .ok _ => .ok (⟨p.gen, rng⟩, rng + 1)

/-- Model of `format!("{:?}", proof)` (line 91): an opaque deterministic
rendering of the proof object. -/
def proofBytes (p : GrothProof) : List Nat :=
  ascii "Proof(" ++ natAscii p.paramsGen ++ ascii ";" ++ natAscii p.nonce ++ ascii ")"

/-- Observation record of one `generate_block_proof` call: its two arguments
and the returned serialized proof. -/
structure GbpCall where
  block_hash : Nat
  txHashes : List Nat
  ret : List Nat
deriving DecidableEq, Repr

/-- Observation record of one trusted-setup invocation: the circuit shape
(number of transaction inputs) and the generation drawn for it. -/
structure SetupEvent where
  shape : Nat
  gen : Nat
deriving DecidableEq, Repr

/-- Embedding of `generate_block_proof` (lines 70-92): build the witness
circuit, generate fresh parameters from a shape-only circuit, create a proof,
serialize it.  The two `.unwrap()` calls are modelled by propagating the error,
which at the top level is a process abort.  Alongside the source outputs the
embedding returns the call and setup observation records. -/
def generate_block_proof (block_hash : Nat) (transaction_hashes : List Nat)
    (rng : Nat) :
    Except SynthesisError (List Nat × Nat × GbpCall × SetupEvent) :=
  match generate_random_parameters
      ⟨none, List.replicate transaction_hashes.length none⟩ rng with
  | .error e => .error e
  | .ok (params, rng1) =>
    match create_random_proof
        ⟨some block_hash, transaction_hashes.map some⟩ params rng1 with
    | .error e => .error e
    | .ok (prf, rng2) =>
      .ok (proofBytes prf, rng2,
           ⟨block_hash, transaction_hashes, proofBytes prf⟩,
           ⟨params.shape, params.gen⟩)

/-! ## Per-block processing (src/main.rs lines 127-173, 199-207) -/

/-- Embedding of `save_proof_to_json` (lines 199-207): the file name keyed by
slot and the serialized record, as handed to the filesystem. -/
def save_proof_to_json (block_proof : BlockProof) (slot : Nat) :
    List Nat × BlockProof :=
  (ascii "block_proof_" ++ natAscii slot ++ ascii ".json", block_proof)

/-- State of the signature loop in `main` (lines 132-162): the accumulated
transaction hashes and transaction proofs, the rng counter, and the
observation records (calls, setups, count of failed signature encodings). -/
structure LoopSt where
  txHashes : List Nat
  txProofs : List TransactionProof
  rng : Nat
  calls : List GbpCall
  setups : List SetupEvent
  encodeFailures : Nat
deriving DecidableEq, Repr

/-- One signature iteration of the `main` loop (lines 142-160): encode the
signature, push its hash, generate a proof over the accumulated hashes, and
append the transaction proof; a failed encoding only logs (counted here). -/
def procSig (st : LoopSt) (sig : List Nat) : Except SynthesisError LoopSt :=
  match str_to_fr sig with
  | some transaction_hash =>
    let hs := st.txHashes ++ [transaction_hash]
    match generate_block_proof transaction_hash hs st.rng with
    | .error e => .error e
    | .ok (prf, rng2, call, setup) =>
      .ok ⟨hs, st.txProofs ++ [⟨sig, prf⟩], rng2,
           st.calls ++ [call], st.setups ++ [setup], st.encodeFailures⟩
  | none => .ok { st with encodeFailures := st.encodeFailures + 1 }

/-- The signature loop over one transaction's signature list. -/
def procSigs (st : LoopSt) : List (List Nat) → Except SynthesisError LoopSt
  | [] => .ok st
  | sig :: rest =>
    match procSig st sig with
    | .error e => .error e
    | .ok st1 => procSigs st1 rest

/-- The transaction loop of `main` (lines 140-162): only `Json`-encoded
transactions are examined. -/
def procTxs (st : LoopSt) :
    List EncodedTransactionWithStatusMeta → Except SynthesisError LoopSt
  | [] => .ok st
  | t :: rest =>
    match t.transaction with
    | .json sigs =>
      match procSigs st sigs with
      | .error e => .error e
      | .ok st1 => procTxs st1 rest
    | .notJson _ => procTxs st rest

/-- Everything observable about the successful processing of one block: the
persisted file name and record, the `generate_block_proof` calls and setups,
the number of failed signature encodings, and the (unused) final block proof
string of line 165. -/
structure SlotOutcome where
  fileName : List Nat
  record : BlockProof
  calls : List GbpCall
  setups : List SetupEvent
  encodeFailures : Nat
  finalProof : List Nat
deriving DecidableEq, Repr

/-- Result of processing one fetched block: either a persisted proof bundle,
or the (line 171-173) branch where the block hash failed to encode and
nothing is persisted. -/
inductive SlotResult where
  | proved (o : SlotOutcome)
  | hashEncodeFailed
deriving DecidableEq, Repr

/-- Embedding of the `Ok(block)` arm of the `main` loop (lines 127-173):
encode the block hash, run the transaction loop, generate the final block
proof over all accumulated hashes (its string is discarded by the source),
and persist the record. -/
def processBlock (slot : Nat) (block : Block) (rng : Nat) :
    Except SynthesisError (SlotResult × Nat) :=
  match str_to_fr block.blockhash with
  | some block_hash =>
    match procTxs ⟨[], [], rng, [], [], 0⟩ block.transactions with
    | .error e => .error e
    | .ok st =>
      match generate_block_proof block_hash st.txHashes st.rng with
      | .error e => .error e
      | .ok (block_proof_str, rng2, finalCall, finalSetup) =>
        let record : BlockProof := ⟨slot, block.blockhash, st.txProofs⟩
        let saved := save_proof_to_json record slot
        .ok (.proved ⟨saved.1, saved.2, st.calls ++ [finalCall],
                      st.setups ++ [finalSetup], st.encodeFailures,
                      block_proof_str⟩, rng2)
  | none => .ok (.hashEncodeFailed, rng)

/-! ## The tracker loop (src/main.rs lines 115-196) -/

/-- Result of `client.get_block(slot)`: a block, or a free-text error. -/
inductive FetchResult where
  | ok (b : Block)
  | err (msg : List Nat)

/-- The mutable state of the tracker: `last_slot` and `seen_blocks`. -/
structure TrackerState where
  last_slot : Nat
  seen : List Nat
deriving DecidableEq, Repr

/-- `HashSet::insert` on the seen-slots set (order of the model list is the
insertion order, newest first; only membership is ever consulted). -/
def insertSeen (s : Nat) (seen : List Nat) : List Nat :=
  if seen.contains s then seen else s :: seen

/-- Substring test `pat` at the head of `s`. -/
def leadsWith : List Nat → List Nat → Bool
  | [], _ => true
  | _ :: _, [] => false
  | p :: ps, x :: xs => p == x && leadsWith ps xs

/-- Model of Rust's `str::find` for a literal pattern: byte index of the first
occurrence. -/
def findSub : List Nat → List Nat → Option Nat
  | s, pat =>
    if leadsWith pat s then some 0
    else
      match s with
      | [] => none
      | _ :: rest => (findSub rest pat).map (· + 1)

/-- Model of Rust's `str::contains` for a literal pattern. -/
def containsSub (s pat : List Nat) : Bool := (findSub s pat).isSome

/-- Model of `str::parse::<u64>`: optional leading `+`, one or more decimal
digits, value below `2^64`. -/
def parseU64 (s : List Nat) : Option Nat :=
  let core := match s with
    | 43 :: rest => rest
    | _ => s
  if core.isEmpty then none
  else if core.all (fun b => 48 ≤ b && b ≤ 57) then
    let v := core.foldl (fun acc b => acc * 10 + (b - 48)) 0
    if v < 18446744073709551616 then some v else none
  else none

/-- Embedding of the error classification of the `Err(e)` arm (lines 176-186):
if the message reports a skipped or cleaned-up slot and the digits between the
literal label `"First available block: "` (whose length is the hard-coded
offset 23) and the following comma parse as a slot number, that number is the
resync target; any other error only logs. -/
def classifyError (msg : List Nat) : Option Nat :=
  if containsSub msg (ascii "Slot was skipped")
      || containsSub msg (ascii "Block cleaned up") then
    match findSub msg (ascii "First available block: ") with
    | some start =>
      match findSub (msg.drop start) (ascii ",") with
      | some endIdx =>
        match parseU64 ((msg.drop (start + 23)).take (endIdx - 23)) with
        | some fab => some fab
        | none => none
      | none => none
    | none => none
  else none

/-- Observable outcome of one poll pass: the tracker state, the rng counter,
the slots for which `get_block` was called (in call order), and the persisted
proof files. -/
structure PassOut where
  state : TrackerState
  rng : Nat
  fetched : List Nat
  persists : List (List Nat × BlockProof)
deriving Repr

/-- Embedding of the `for slot in (last_slot + 1)..=current_slot` loop
(lines 121-192): skip seen slots, process fetched blocks, and on a
classified skipped/pruned error set `last_slot` to the reported first
available block and break out of the loop. -/
def enumSlots (fetch : Nat → FetchResult) :
    List Nat → TrackerState → Nat → Except SynthesisError PassOut
  | [], st, rng => .ok ⟨st, rng, [], []⟩
  | slot :: rest, st, rng =>
    if st.seen.contains slot then enumSlots fetch rest st rng
    else
      match fetch slot with
      | .ok block =>
        match processBlock slot block rng with
        | .error e => .error e
        | .ok (.proved out, rng2) =>
          match enumSlots fetch rest { st with seen := insertSeen slot st.seen } rng2 with
          | .error e => .error e
          | .ok tail =>
            .ok ⟨tail.state, tail.rng, slot :: tail.fetched,
                 (out.fileName, out.record) :: tail.persists⟩
        | .ok (.hashEncodeFailed, rng2) =>
          match enumSlots fetch rest st rng2 with
          | .error e => .error e
          | .ok tail => .ok ⟨tail.state, tail.rng, slot :: tail.fetched, tail.persists⟩
      | .err msg =>
        match classifyError msg with
        | some fab => .ok ⟨{ st with last_slot := fab }, rng, [slot], []⟩
        | none =>
          match enumSlots fetch rest st rng with
          | .error e => .error e
          | .ok tail => .ok ⟨tail.state, tail.rng, slot :: tail.fetched, tail.persists⟩

/-- Embedding of one iteration of the outer `loop` (lines 118-196): when the
tip advanced, enumerate `(last_slot, current_slot]` in ascending order and
afterwards — unconditionally, line 193 — set `last_slot = current_slot`. -/
def runPass (fetch : Nat → FetchResult) (current_slot : Nat)
    (st : TrackerState) (rng : Nat) : Except SynthesisError PassOut :=
  if st.last_slot < current_slot then
    match enumSlots fetch (List.range' (st.last_slot + 1) (current_slot - st.last_slot)) st rng with
    | .error e => .error e
    | .ok out => .ok ⟨{ out.state with last_slot := current_slot }, out.rng, out.fetched, out.persists⟩
  else .ok ⟨st, rng, [], []⟩

/-- A sequence of poll passes, each with its observed chain tip and fetch
oracle; returns the final state, rng, and the per-pass lists of fetched
slots. -/
def runPasses :
    List (Nat × (Nat → FetchResult)) → TrackerState → Nat →
    Except SynthesisError (TrackerState × Nat × List (List Nat))
  | [], st, rng => .ok (st, rng, [])
  | (tip, fetch) :: ps, st, rng =>
    match runPass fetch tip st rng with
    | .error e => .error e
    | .ok out =>
      match runPasses ps out.state out.rng with
      | .error e => .error e
      | .ok (st1, rng1, logs) => .ok (st1, rng1, out.fetched :: logs)

/-! ## Statement-side helpers -/

/-- The list of nonempty cumulative initial segments of a list:
`tailInits [a, b] = [[a], [a, b]]`. -/
def tailInits : List α → List (List α)
  | [] => []
  | a :: l => [a] :: (tailInits l).map (fun p => a :: p)

/-- Ascending run of `n` naturals starting at `s`. -/
def upCounts : Nat → Nat → List Nat
  | _, 0 => []
  | s, n + 1 => s :: upCounts (s + 1) n

/-- View of a processing result as the persisted data a reader of the proofs
directory sees: file name, slot, block hash, and the ordered transaction-hash
entries. -/
def persistView (e : Except SynthesisError (SlotResult × Nat)) :
    Option (List Nat × Nat × List Nat × List (List Nat)) :=
  match e with
  | .ok (.proved o, _) =>
    some (o.fileName, o.record.slot, o.record.block_hash,
          o.record.transactions.map (fun t => t.transaction_hash))
  | _ => none

/-- View of a processing result as the trusted-setup invocations it
performed. -/
def setupsView (e : Except SynthesisError (SlotResult × Nat)) : List SetupEvent :=
  match e with
  | .ok (.proved o, _) => o.setups
  | _ => []

/-! ## Concrete scenario inputs -/

/-- The claim C2 / C5-style error text: a cleaned-up block with first
available block 25. -/
def c2msg : List Nat :=
  ascii "Block cleaned up. First available block: 25, node pruned history"

/-- A fetch oracle that reports the cleaned-up error for every slot. -/
def c2fetch : Nat → FetchResult := fun _ => .err c2msg

/-- The claim C5 error text: a skipped slot with first available block 57. -/
def c5msg : List Nat :=
  ascii "RPC error: Slot was skipped, or missing. First available block: 57, end"

/-- An unclassified fetch error (matches neither transient condition). -/
def unclassifiedFetch : Nat → FetchResult := fun _ => .err (ascii "connection refused")

/-- The claim C4 scenario block: slot-10 block with hash `"abcd"`, one
transaction signed `sigA` and one signed `sigB1`, `sigB2`. -/
def blockScenario10 : Block :=
  ⟨ascii "abcd", [⟨.json [ascii "sigA"]⟩, ⟨.json [ascii "sigB1", ascii "sigB2"]⟩]⟩

/-- A block containing a JSON-encoded transaction and a non-JSON-encoded
transaction that carries a signature. -/
def blockMixed : Block :=
  ⟨ascii "h", [⟨.json [ascii "sigA"]⟩, ⟨.notJson [ascii "sigX"]⟩]⟩

/-- A block with a single JSON-encoded, singly-signed transaction. -/
def blockOneSig : Block := ⟨ascii "h", [⟨.json [ascii "sigA"]⟩]⟩

/-! ## Helper lemmas -/

/-- The encoder returns `some` of `frOfStr` on every input. -/
theorem str_to_fr_eq (s : List Nat) : str_to_fr s = some (frOfStr s) := rfl

/-- Reduction of `generate_block_proof`: every call performs one fresh
parameter generation for the shape given by its transaction-hash count and
one proof creation against exactly those parameters, and never fails. -/
theorem generate_block_proof_eq (bh : Nat) (txs : List Nat) (rng : Nat) :
    generate_block_proof bh txs rng =
      .ok (proofBytes ⟨rng, rng + 1⟩, rng + 2,
           ⟨bh, txs, proofBytes ⟨rng, rng + 1⟩⟩, ⟨txs.length, rng⟩) := by
  simp [generate_block_proof, generate_random_parameters, create_random_proof,
        BlockCircuit.synthesize, csAlloc, emptyCS]

/-- Reduction of one signature iteration: the hash is appended, a proof over
the accumulated hashes is generated and recorded, and no failure occurs. -/
theorem procSig_eq (st : LoopSt) (s : List Nat) :
    procSig st s =
      .ok ⟨st.txHashes ++ [frOfStr s],
           st.txProofs ++ [⟨s, proofBytes ⟨st.rng, st.rng + 1⟩⟩],
           st.rng + 2,
           st.calls ++ [⟨frOfStr s, st.txHashes ++ [frOfStr s],
                         proofBytes ⟨st.rng, st.rng + 1⟩⟩],
           st.setups ++ [⟨st.txHashes.length + 1, st.rng⟩],
           st.encodeFailures⟩ := by
  simp [procSig, str_to_fr, frOfStr, generate_block_proof_eq]

/-- Distribution of `tailInits` over append. -/
theorem tailInits_append (l₁ l₂ : List α) :
    tailInits (l₁ ++ l₂) = tailInits l₁ ++ (tailInits l₂).map (fun p => l₁ ++ p) := by
  induction l₁ with
  | nil => simp [tailInits]
  | cons a l ih => simp [tailInits, ih, List.map_map, Function.comp]

/-- Lengths of the cumulative segments, shifted by a common front. -/
theorem tailInits_length (l : List α) : ∀ pre : List α,
    (tailInits l).map (fun p => (pre ++ p).length) = upCounts (pre.length + 1) l.length := by
  induction l with
  | nil => intro pre; simp [tailInits, upCounts]
  | cons a l ih =>
    intro pre
    have h1 := ih (pre ++ [a])
    simp only [tailInits, upCounts, List.map_cons, List.map_map]
    have h2 : ((fun p => (pre ++ p).length) ∘ fun p => a :: p)
           = fun p => ((pre ++ [a]) ++ p).length := by
      funext p; simp
    rw [h2, h1]
    simp

/-- `upCounts` is strictly increasing in consecutive entries. -/
theorem upCounts_chain : ∀ (n s : Nat), List.Chain' (· < ·) (upCounts s n) := by
  intro n
  induction n with
  | zero => intro s; simp [upCounts]
  | succ n ih =>
    intro s
    rw [upCounts, List.chain'_cons']
    refine ⟨?_, ih (s + 1)⟩
    intro b hb
    cases n with
    | zero => simp [upCounts] at hb
    | succ m =>
      simp [upCounts] at hb
      omega

/-- Full characterization of the signature loop: it never fails, and every
signature appends its hash, one transaction proof, one
`generate_block_proof` call over the cumulative hash list, and one fresh
setup of the cumulative shape. -/
theorem procSigs_spec (sigs : List (List Nat)) : ∀ st : LoopSt,
    ∃ stN nProofs nCalls nSetups,
      procSigs st sigs = .ok stN ∧
      stN.txHashes = st.txHashes ++ sigs.map frOfStr ∧
      stN.txProofs = st.txProofs ++ nProofs ∧
      stN.calls = st.calls ++ nCalls ∧
      stN.setups = st.setups ++ nSetups ∧
      stN.rng = st.rng + 2 * sigs.length ∧
      stN.encodeFailures = st.encodeFailures ∧
      nProofs.map (fun t => t.transaction_hash) = sigs ∧
      nProofs.map (fun t => t.proof) = nCalls.map (fun c => c.ret) ∧
      nCalls.map (fun c => c.txHashes)
        = (tailInits (sigs.map frOfStr)).map (fun p => st.txHashes ++ p) ∧
      nCalls.map (fun c => c.block_hash) = sigs.map frOfStr ∧
      nSetups.map (fun e => e.shape) = nCalls.map (fun c => c.txHashes.length) ∧
      nSetups.length = sigs.length := by
  induction sigs with
  | nil =>
    intro st
    exact ⟨st, [], [], [], rfl, by simp, by simp, by simp, by simp, by simp,
           rfl, rfl, rfl, by simp [tailInits], rfl, rfl, rfl⟩
  | cons s rest ih =>
    intro st
    obtain ⟨stN, nP, nC, nS, h1, h2, h3, h4, h5, h6, h7, h8, h9, h10, h11, h12, h13⟩ :=
      ih ⟨st.txHashes ++ [frOfStr s],
          st.txProofs ++ [⟨s, proofBytes ⟨st.rng, st.rng + 1⟩⟩],
          st.rng + 2,
          st.calls ++ [⟨frOfStr s, st.txHashes ++ [frOfStr s], proofBytes ⟨st.rng, st.rng + 1⟩⟩],
          st.setups ++ [⟨st.txHashes.length + 1, st.rng⟩],
          st.encodeFailures⟩
    dsimp only at h2 h3 h4 h5 h6 h7 h10
    refine ⟨stN,
      ⟨s, proofBytes ⟨st.rng, st.rng + 1⟩⟩ :: nP,
      ⟨frOfStr s, st.txHashes ++ [frOfStr s], proofBytes ⟨st.rng, st.rng + 1⟩⟩ :: nC,
      ⟨st.txHashes.length + 1, st.rng⟩ :: nS,
      ?_, ?_, ?_, ?_, ?_, ?_, h7, ?_, ?_, ?_, ?_, ?_, ?_⟩
    · simp only [procSigs, procSig_eq]
      exact h1
    · rw [h2]; simp
    · rw [h3]; simp
    · rw [h4]; simp
    · rw [h5]; simp
    · rw [h6]; simp [Nat.mul_add, Nat.mul_succ]; omega
    · simp [h8]
    · simp [h9]
    · rw [List.map_cons, h10]
      simp [tailInits, List.map_map, Function.comp_def, List.append_assoc]
    · simp [h11]
    · simp [h12]
    · simp [h13]

/-- Full characterization of the transaction loop: only the JSON-exposed
signatures are processed, with the same per-signature structure as
`procSigs_spec`. -/
theorem procTxs_spec (txs : List EncodedTransactionWithStatusMeta) : ∀ st : LoopSt,
    ∃ stN nProofs nCalls nSetups,
      procTxs st txs = .ok stN ∧
      stN.txHashes = st.txHashes ++ (jsonSigsL txs).map frOfStr ∧
      stN.txProofs = st.txProofs ++ nProofs ∧
      stN.calls = st.calls ++ nCalls ∧
      stN.setups = st.setups ++ nSetups ∧
      stN.rng = st.rng + 2 * (jsonSigsL txs).length ∧
      stN.encodeFailures = st.encodeFailures ∧
      nProofs.map (fun t => t.transaction_hash) = jsonSigsL txs ∧
      nProofs.map (fun t => t.proof) = nCalls.map (fun c => c.ret) ∧
      nCalls.map (fun c => c.txHashes)
        = (tailInits ((jsonSigsL txs).map frOfStr)).map (fun p => st.txHashes ++ p) ∧
      nCalls.map (fun c => c.block_hash) = (jsonSigsL txs).map frOfStr ∧
      nSetups.map (fun e => e.shape) = nCalls.map (fun c => c.txHashes.length) ∧
      nSetups.length = (jsonSigsL txs).length := by
  induction txs with
  | nil =>
    intro st
    exact ⟨st, [], [], [], rfl, by simp [jsonSigsL], by simp, by simp, by simp,
           by simp [jsonSigsL], rfl, rfl, rfl, by simp [tailInits, jsonSigsL],
           rfl, rfl, rfl⟩
  | cons t rest ih =>
    intro st
    obtain ⟨tx⟩ := t
    cases tx with
    | notJson s2 =>
      obtain ⟨stN, nP, nC, nS, h1, h2, h3, h4, h5, h6, h7, h8, h9, h10, h11, h12, h13⟩ :=
        ih st
      exact ⟨stN, nP, nC, nS, h1, by simpa [jsonSigsL] using h2, h3, h4, h5,
             by simpa [jsonSigsL] using h6, h7, by simpa [jsonSigsL] using h8, h9,
             by simpa [jsonSigsL] using h10, by simpa [jsonSigsL] using h11, h12,
             by simpa [jsonSigsL] using h13⟩
    | json sigs =>
      obtain ⟨stM, mP, mC, mS, g1, g2, g3, g4, g5, g6, g7, g8, g9, g10, g11, g12, g13⟩ :=
        procSigs_spec sigs st
      obtain ⟨stN, nP, nC, nS, h1, h2, h3, h4, h5, h6, h7, h8, h9, h10, h11, h12, h13⟩ :=
        ih stM
      refine ⟨stN, mP ++ nP, mC ++ nC, mS ++ nS, ?_, ?_, ?_, ?_, ?_, ?_, ?_,
              ?_, ?_, ?_, ?_, ?_, ?_⟩
      · simp only [procTxs, g1]
        exact h1
      · rw [h2, g2]; simp [jsonSigsL, List.append_assoc]
      · rw [h3, g3]; simp [List.append_assoc]
      · rw [h4, g4]; simp [List.append_assoc]
      · rw [h5, g5]; simp [List.append_assoc]
      · rw [h6, g6]; simp [jsonSigsL]; omega
      · rw [h7, g7]
      · simp [jsonSigsL, h8, g8]
      · simp [h9, g9]
      · rw [List.map_append, g10, h10, g2]
        simp [jsonSigsL, tailInits_append, List.map_map, Function.comp_def,
              List.append_assoc]
      · simp [jsonSigsL, h11, g11]
      · simp [h12, g12]
      · simp [jsonSigsL, h13, g13]

/-- Dropping the final element of an appended singleton. -/
theorem dropLast_app_single (l : List α) (a : α) : (l ++ [a]).dropLast = l := by
  simp

/-- Full characterization of the processing of one fetched block: it always
reaches persistence (never fails, never takes an encoding-error branch), the
persisted record carries the slot, the block-hash string and one transaction
proof per JSON-exposed signature in order, each transaction proof was
returned by the `generate_block_proof` call whose transaction-hash inputs are
the cumulative initial segment of the encoded signature hashes ending at its
own signature, the final call receives all encoded hashes, and every call
performs its own fresh parameter setup of its own shape. -/
theorem processBlock_spec (slot : Nat) (b : Block) (rng : Nat) :
    ∃ out rng2,
      processBlock slot b rng = .ok (.proved out, rng2) ∧
      out.fileName = ascii "block_proof_" ++ natAscii slot ++ ascii ".json" ∧
      out.record.slot = slot ∧
      out.record.block_hash = b.blockhash ∧
      out.record.transactions.map (fun t => t.transaction_hash) = jsonSignatures b ∧
      out.record.transactions.map (fun t => t.proof)
        = out.calls.dropLast.map (fun c => c.ret) ∧
      out.calls.dropLast.map (fun c => c.txHashes)
        = tailInits ((jsonSignatures b).map frOfStr) ∧
      out.calls.dropLast.map (fun c => c.block_hash)
        = (jsonSignatures b).map frOfStr ∧
      out.calls.map (fun c => c.txHashes)
        = tailInits ((jsonSignatures b).map frOfStr) ++ [(jsonSignatures b).map frOfStr] ∧
      out.setups.map (fun e => e.shape) = out.calls.map (fun c => c.txHashes.length) ∧
      out.setups.length = (jsonSignatures b).length + 1 ∧
      out.encodeFailures = 0 := by
  obtain ⟨stN, nP, nC, nS, h1, h2, h3, h4, h5, h6, h7, h8, h9, h10, h11, h12, h13⟩ :=
    procTxs_spec b.transactions ⟨[], [], rng, [], [], 0⟩
  dsimp only at h2 h3 h4 h5 h6 h7 h10
  rw [List.nil_append] at h2
  rw [List.nil_append] at h3 h4 h5
  refine ⟨⟨ascii "block_proof_" ++ natAscii slot ++ ascii ".json",
           ⟨slot, b.blockhash, stN.txProofs⟩,
           stN.calls ++ [⟨frOfStr b.blockhash, stN.txHashes, proofBytes ⟨stN.rng, stN.rng + 1⟩⟩],
           stN.setups ++ [⟨stN.txHashes.length, stN.rng⟩],
           stN.encodeFailures,
           proofBytes ⟨stN.rng, stN.rng + 1⟩⟩,
          stN.rng + 2, ?_, rfl, rfl, rfl, ?_, ?_, ?_, ?_, ?_, ?_, ?_, ?_⟩
  · simp only [processBlock, str_to_fr_eq, h1, generate_block_proof_eq,
               save_proof_to_json]
  · dsimp only
    rw [h3, h8]
    rfl
  · dsimp only
    rw [h3, h4, dropLast_app_single, h9]
  · dsimp only
    rw [h4, dropLast_app_single, h10, jsonSignatures]
    simp
  · dsimp only
    rw [h4, dropLast_app_single, h11, jsonSignatures]
  · dsimp only
    rw [h4, List.map_append, h10, h2, jsonSignatures]
    simp
  · dsimp only
    rw [h4, h5, List.map_append, List.map_append, h12]
    simp [h2]
  · dsimp only
    rw [h5]
    simp [h13, jsonSignatures]
  · dsimp only
    rw [h7]

/-- Every slot for which the enumeration loop called `get_block` is one of
the slots it was given. -/
theorem enumSlots_fetched (fetch : Nat → FetchResult) :
    ∀ (slots : List Nat) (st : TrackerState) (rng : Nat) (out : PassOut),
      enumSlots fetch slots st rng = .ok out → ∀ s ∈ out.fetched, s ∈ slots := by
  intro slots
  induction slots with
  | nil =>
    intro st rng out h s hs
    rw [enumSlots] at h
    cases h
    simp at hs
  | cons slot rest ih =>
    intro st rng out h s hs
    rw [enumSlots] at h
    split at h
    · exact List.mem_cons_of_mem _ (ih _ _ _ h s hs)
    · split at h
      · -- fetched block
        split at h
        · exact absurd h (by simp)
        · -- processed and persisted
          split at h
          · exact absurd h (by simp)
          · next tail heq =>
              cases h
              dsimp only at hs
              rcases List.mem_cons.mp hs with h' | h'
              · exact h' ▸ List.mem_cons_self _ _
              · exact List.mem_cons_of_mem _ (ih _ _ _ heq s h')
        · -- block-hash encoding failure branch
          split at h
          · exact absurd h (by simp)
          · next tail heq =>
              cases h
              dsimp only at hs
              rcases List.mem_cons.mp hs with h' | h'
              · exact h' ▸ List.mem_cons_self _ _
              · exact List.mem_cons_of_mem _ (ih _ _ _ heq s h')
      · -- fetch error
        split at h
        · -- resync break
          cases h
          dsimp only at hs
          rcases List.mem_cons.mp hs with h' | h'
          · exact h' ▸ List.mem_cons_self _ _
          · simp at h'
        · -- unclassified error, continue
          split at h
          · exact absurd h (by simp)
          · next tail heq =>
              cases h
              dsimp only at hs
              rcases List.mem_cons.mp hs with h' | h'
              · exact h' ▸ List.mem_cons_self _ _
              · exact List.mem_cons_of_mem _ (ih _ _ _ heq s h')

/-- A poll pass never moves `last_slot` backwards, and every slot it fetched
lies in the half-open window between the previous `last_slot` and the
`last_slot` it ends with. -/
theorem runPass_spec (fetch : Nat → FetchResult) (tip : Nat)
    (st : TrackerState) (rng : Nat) (out : PassOut)
    (h : runPass fetch tip st rng = .ok out) :
    st.last_slot ≤ out.state.last_slot ∧
    ∀ s ∈ out.fetched, st.last_slot < s ∧ s ≤ out.state.last_slot := by
  rw [runPass] at h
  split at h
  · next hlt =>
    split at h
    · exact absurd h (by simp)
    · next eout heq =>
      cases h
      dsimp only
      refine ⟨Nat.le_of_lt hlt, ?_⟩
      intro s hs
      have hmem := enumSlots_fetched fetch _ _ _ _ heq s hs
      rw [List.mem_range'_1] at hmem
      omega
  · cases h
    exact ⟨Nat.le_refl _, by intro s hs; simp at hs⟩

/-- Across a run of poll passes, `last_slot` is monotone, every fetched slot
lies between the initial and final `last_slot`, and the per-pass fetch lists
are strictly increasing between passes: no slot is ever fetched in two
different passes (in particular, no slot is ever retried). -/
theorem runPasses_spec :
    ∀ (passes : List (Nat × (Nat → FetchResult))) (st : TrackerState) (rng : Nat)
      (st1 : TrackerState) (rng1 : Nat) (logs : List (List Nat)),
      runPasses passes st rng = .ok (st1, rng1, logs) →
      st.last_slot ≤ st1.last_slot ∧
      (∀ l ∈ logs, ∀ s ∈ l, st.last_slot < s ∧ s ≤ st1.last_slot) ∧
      logs.Pairwise (fun a b => ∀ x ∈ a, ∀ y ∈ b, x < y) := by
  intro passes
  induction passes with
  | nil =>
    intro st rng st1 rng1 logs h
    rw [runPasses] at h
    cases h
    exact ⟨Nat.le_refl _, by simp, by simp⟩
  | cons p ps ih =>
    intro st rng st1 rng1 logs h
    rw [runPasses] at h
    split at h
    · exact absurd h (by simp)
    · next out heq =>
      split at h
      · exact absurd h (by simp)
      · next stT rngT logsT heqT =>
        cases h
        obtain ⟨hmono, hbound, hpw⟩ := ih _ _ _ _ _ heqT
        obtain ⟨hmono0, hbound0⟩ := runPass_spec _ _ _ _ _ heq
        refine ⟨Nat.le_trans hmono0 hmono, ?_, ?_⟩
        · intro l hl s hs
          rcases List.mem_cons.mp hl with h' | h'
          · subst h'
            obtain ⟨hgt, hle⟩ := hbound0 s hs
            exact ⟨hgt, Nat.le_trans hle hmono⟩
          · obtain ⟨hgt, hle⟩ := hbound l h' s hs
            exact ⟨Nat.lt_of_le_of_lt hmono0 hgt, hle⟩
        · refine List.Pairwise.cons ?_ hpw
          intro l hl x hx y hy
          obtain ⟨_, hxle⟩ := hbound0 x hx
          obtain ⟨hygt, _⟩ := hbound l hl y hy
          exact Nat.lt_of_le_of_lt hxle hygt

/-! ## Claim theorems -/

/-- Claim C1 (refuted; evidence for the code bug): in witness mode
`BlockCircuit::synthesize` allocates exactly one variable (the block hash)
and emits exactly one constraint, whatever the number of transaction hashes;
that constraint's right-hand side is a coefficient on the constant `one`
wire, the coefficient being the SHA-256 digest of the transaction-hash
representations computed natively, outside the constraint system.  So no bit
of the hash computation is represented by constraints, and the single
equality ties the block-hash variable to a prover-supplied constant — not to
an in-circuit computed hash output. -/
theorem c1_hash_computed_outside_constraints :
    ∀ (bh : Nat) (txs : List Nat), ∃ cs : ConstraintSys,
      BlockCircuit.synthesize ⟨some bh, txs.map some⟩ true emptyCS = .ok cs ∧
      cs.nAux = 1 ∧
      cs.constraints =
        [⟨[(Var.aux 0, 1)], [(Var.one, 1)],
          [(Var.one, (frFromRepr (sha256 (txs.flatMap frToRepr))).getD 0)]⟩] := by
  intro bh txs
  refine ⟨⟨1, [⟨[(Var.aux 0, 1)], [(Var.one, 1)],
            [(Var.one, (frFromRepr (sha256 (txs.flatMap frToRepr))).getD 0)]⟩]⟩,
          ?_, rfl, rfl⟩
  simp [BlockCircuit.synthesize, csAlloc, emptyCS, List.filterMap_map,
        Function.comp_def]

/-- Claim C2 (refuted; evidence for the code bug): with tip 30, previous
`last_slot` 19 and every fetch failing with the cleaned-up error naming
first available block 25, the pass aborts at slot 20 and leaves no slot
seen — but ends with `last_slot = 30` (the post-loop assignment of line 193
overwrites the resync value 25), and the next pass with tip 31 starts
enumeration at slot 31, not at 26. -/
theorem c2_resync_value_overwritten_by_tip :
    runPass c2fetch 30 ⟨19, []⟩ 0 = .ok ⟨⟨30, []⟩, 0, [20], []⟩ ∧
    runPass c2fetch 31 ⟨30, []⟩ 0 = .ok ⟨⟨31, []⟩, 0, [31], []⟩ :=
  ⟨rfl, rfl⟩

/-- Claim C3 (refuted; evidence for the code bug): every
`generate_block_proof` call performs its own parameter generation — for any
block, the number of setups equals the number of calls (one per
JSON-exposed signature plus the final block proof), each of the shape of its
own call; concretely, processing a block with one singly-signed transaction
runs the trusted setup twice for the same shape 1, with distinct parameter
generations 0 and 2. -/
theorem c3_setup_regenerated_on_every_call :
    (∀ (slot : Nat) (b : Block) (rng : Nat), ∃ out rng2,
       processBlock slot b rng = .ok (.proved out, rng2) ∧
       out.setups.length = (jsonSignatures b).length + 1 ∧
       out.setups.map (fun e => e.shape) = out.calls.map (fun c => c.txHashes.length)) ∧
    setupsView (processBlock 0 blockOneSig 0) = [⟨1, 0⟩, ⟨1, 2⟩] := by
  constructor
  · intro slot b rng
    obtain ⟨out, rng2, h1, _, _, _, _, _, _, _, _, h10, h11, _⟩ :=
      processBlock_spec slot b rng
    exact ⟨out, rng2, h1, h11, h10⟩
  · rfl

/-- Claim C4, counterexample: for the block containing a JSON transaction
signed `sigA` and a non-JSON-encoded transaction carrying signature `sigX`,
the persisted transaction list is not the concatenation of the source
block's transaction-signature lists (the non-JSON signature is dropped). -/
theorem c4_counterexample :
    ¬ ∃ out rng2,
        processBlock 10 blockMixed 0 = .ok (.proved out, rng2) ∧
        out.record.transactions.map (fun t => t.transaction_hash)
          = specAllSignatures blockMixed := by
  rintro ⟨out, rng2, heq, hmap⟩
  obtain ⟨out2, rng3, heq2, _, _, _, h5, _⟩ := processBlock_spec 10 blockMixed 0
  rw [heq] at heq2
  simp only [Except.ok.injEq, Prod.mk.injEq, SlotResult.proved.injEq] at heq2
  rw [heq2.1] at hmap
  rw [h5] at hmap
  exact absurd hmap (by decide)

/-- Claim C4 as amended: for every fetched block, exactly one `BlockProof`
is persisted under `block_proof_<slot>.json`, and its transaction list has
the same length and order as the concatenation of the signature lists of the
block's JSON-encoded transactions; in particular the slot-10 scenario block
persists `block_proof_10.json` with slot 10, block hash `"abcd"` and the
three entries `sigA, sigB1, sigB2` in order. -/
theorem c4_persisted_record_matches_json_signatures :
    (∀ (slot : Nat) (b : Block) (rng : Nat), ∃ out rng2,
       processBlock slot b rng = .ok (.proved out, rng2) ∧
       out.fileName = ascii "block_proof_" ++ natAscii slot ++ ascii ".json" ∧
       out.record.slot = slot ∧
       out.record.block_hash = b.blockhash ∧
       out.record.transactions.map (fun t => t.transaction_hash) = jsonSignatures b ∧
       out.record.transactions.length = (jsonSignatures b).length) ∧
    persistView (processBlock 10 blockScenario10 0) =
      some (ascii "block_proof_10.json", 10, ascii "abcd",
            [ascii "sigA", ascii "sigB1", ascii "sigB2"]) := by
  constructor
  · intro slot b rng
    obtain ⟨out, rng2, h1, h2, h3, h4, h5, _⟩ := processBlock_spec slot b rng
    refine ⟨out, rng2, h1, h2, h3, h4, h5, ?_⟩
    have := congrArg List.length h5
    simpa using this
  · obtain ⟨out, rng2, h1, h2, h3, h4, h5, _⟩ := processBlock_spec 10 blockScenario10 0
    simp only [h1, persistView, h2, h3, h4, h5]
    decide

/-- Claim C5 (confirmed): the C5 error text parses to exactly 57 (the
decimal digits between the label `"First available block: "` and the
following comma); whenever a fetch error classifies with parsed floor 57 the
enumeration loop immediately sets `last_slot` to 57 and breaks, regardless
of the prior `last_slot`; and in any run of poll passes the per-pass fetch
lists are strictly increasing between passes, so no slot — in particular no
slot below 57 — is ever fetched again (retried) in a later pass. -/
theorem c5_resync_floor_and_no_retry :
    classifyError c5msg = some 57 ∧
    (∀ (msg : List Nat) (fetch : Nat → FetchResult) (slot : Nat)
       (rest : List Nat) (st : TrackerState) (rng : Nat),
       classifyError msg = some 57 →
       st.seen.contains slot = false →
       fetch slot = .err msg →
       enumSlots fetch (slot :: rest) st rng
         = .ok ⟨{ st with last_slot := 57 }, rng, [slot], []⟩) ∧
    (∀ (passes : List (Nat × (Nat → FetchResult))) (st : TrackerState)
       (rng : Nat) (st1 : TrackerState) (rng1 : Nat) (logs : List (List Nat)),
       runPasses passes st rng = .ok (st1, rng1, logs) →
       logs.Pairwise (fun a b => ∀ x ∈ a, ∀ y ∈ b, x < y)) := by
  refine ⟨by decide, ?_, ?_⟩
  · intro msg fetch slot rest st rng hclass hseen hfetch
    have hseen' : slot ∉ st.seen := by simpa using hseen
    simp [enumSlots, hfetch, hclass, hseen']
  · intro passes st rng st1 rng1 logs h
    exact (runPasses_spec passes st rng st1 rng1 logs h).2.2

/-- Witness for C5: the resync break at slot 20 with prior `last_slot` 19,
and the pairwise-increasing fetch logs of a concrete two-slot run. -/
theorem c5_witness :
    enumSlots (fun _ => .err c5msg) [20] ⟨19, []⟩ 0
      = .ok ⟨⟨57, []⟩, 0, [20], []⟩ ∧
    List.Pairwise (fun a b => ∀ x ∈ a, ∀ y ∈ b, x < y) [[1, 2]] :=
  ⟨c5_resync_floor_and_no_retry.2.1 c5msg (fun _ => .err c5msg) 20 [] ⟨19, []⟩ 0
     (by decide) (by decide) rfl,
   c5_resync_floor_and_no_retry.2.2 [(2, unclassifiedFetch)] ⟨0, []⟩ 0
     ⟨2, []⟩ 0 [[1, 2]] (by rfl)⟩

/-- Claim C7 (confirmed): the field encoder is total — it always returns
`some` —, it returns the little-endian value of the SHA-256 digest of the
input bytes whenever that value is a canonical field representation and the
additive identity `0` otherwise, and it never halts the enumeration: every
fetched block is processed to a persisted record with one transaction entry
per JSON-exposed signature. -/
theorem c7_encoder_zero_fallback_total :
    (∀ s : List Nat, str_to_fr s ≠ none) ∧
    (∀ s : List Nat, leVal (sha256 s) < rFr →
       str_to_fr s = some (leVal (sha256 s))) ∧
    (∀ s : List Nat, rFr ≤ leVal (sha256 s) → str_to_fr s = some 0) ∧
    (∀ (slot : Nat) (b : Block) (rng : Nat), ∃ out rng2,
       processBlock slot b rng = .ok (.proved out, rng2) ∧
       out.record.transactions.length = (jsonSignatures b).length) := by
  refine ⟨fun s => by simp [str_to_fr], ?_, ?_, ?_⟩
  · intro s h
    rw [str_to_fr, frFromRepr, if_pos h]
    rfl
  · intro s h
    rw [str_to_fr, frFromRepr, if_neg (by omega)]
    rfl
  · intro slot b rng
    obtain ⟨out, rng2, h1, _, _, _, h5, _⟩ := processBlock_spec slot b rng
    refine ⟨out, rng2, h1, ?_⟩
    have := congrArg List.length h5
    simpa using this

/-- Witness for C7: the digest of `"a"` is not canonical and encodes to
zero; the digest of `"f"` is canonical and encodes to its value. -/
theorem c7_witness :
    str_to_fr (ascii "a") = some 0 ∧
    str_to_fr (ascii "f") = some (leVal (sha256 (ascii "f"))) :=
  ⟨c7_encoder_zero_fallback_total.2.2.1 (ascii "a") (by decide),
   c7_encoder_zero_fallback_total.2.1 (ascii "f") (by decide)⟩

/-- Claim C8 (confirmed): the persisted transaction entries are exactly the
JSON-exposed signatures in order, and every `generate_block_proof` call —
the per-signature ones and the final block-proof one — receives a
transaction-hash input list drawn solely from the encoded JSON-exposed
signatures; signatures of non-JSON-encoded transactions appear in neither. -/
theorem c8_only_json_transactions_contribute :
    ∀ (slot : Nat) (b : Block) (rng : Nat), ∃ out rng2,
      processBlock slot b rng = .ok (.proved out, rng2) ∧
      out.record.transactions.map (fun t => t.transaction_hash) = jsonSignatures b ∧
      out.calls.map (fun c => c.txHashes)
        = tailInits ((jsonSignatures b).map frOfStr)
          ++ [(jsonSignatures b).map frOfStr] := by
  intro slot b rng
  obtain ⟨out, rng2, h1, _, _, _, h5, _, _, _, h9, _⟩ := processBlock_spec slot b rng
  exact ⟨out, rng2, h1, h5, h9⟩

/-- Claim C9 (confirmed): the i-th persisted transaction proof is the return
of the i-th `generate_block_proof` call, whose transaction-hash inputs are
the cumulative initial segment of the encoded signature hashes up to and
including the i-th one; the input counts of consecutive calls are
`1, 2, …, n` and hence strictly increasing, so consecutive entries come from
circuits of different shapes. -/
theorem c9_cumulative_input_lists :
    ∀ (slot : Nat) (b : Block) (rng : Nat), ∃ out rng2,
      processBlock slot b rng = .ok (.proved out, rng2) ∧
      out.record.transactions.map (fun t => t.proof)
        = out.calls.dropLast.map (fun c => c.ret) ∧
      out.calls.dropLast.map (fun c => c.txHashes)
        = tailInits ((jsonSignatures b).map frOfStr) ∧
      out.calls.dropLast.map (fun c => c.txHashes.length)
        = upCounts 1 (jsonSignatures b).length ∧
      List.Chain' (· < ·) (out.calls.dropLast.map (fun c => c.txHashes.length)) := by
  intro slot b rng
  obtain ⟨out, rng2, h1, _, _, _, _, h6, h7, _⟩ := processBlock_spec slot b rng
  have hlen : out.calls.dropLast.map (fun c => c.txHashes.length)
      = upCounts 1 (jsonSignatures b).length := by
    have h := congrArg (List.map List.length) h7
    rw [List.map_map] at h
    rw [Function.comp_def] at h
    have h2 := tailInits_length ((jsonSignatures b).map frOfStr) []
    simp only [List.nil_append, List.length_nil] at h2
    rw [h2] at h
    simpa using h
  refine ⟨out, rng2, h1, h6, h7, hlen, ?_⟩
  rw [hlen]
  exact upCounts_chain _ _

/-- Claim C10 (confirmed): `str_to_fr` returns `some` for every input, so
the two error branches of the main loop that would handle a `None` from a
block-hash or transaction-hash encoding are unreachable — every successfully
fetched block reaches proof generation and persistence with zero encoding
failures. -/
theorem c10_encoder_total_error_branches_dead :
    (∀ s : List Nat, (str_to_fr s).isSome = true) ∧
    (∀ (slot : Nat) (b : Block) (rng : Nat), ∃ out rng2,
       processBlock slot b rng = .ok (.proved out, rng2) ∧
       out.encodeFailures = 0) := by
  refine ⟨fun s => rfl, ?_⟩
  intro slot b rng
  obtain ⟨out, rng2, h1, _, _, _, _, _, _, _, _, _, _, h12⟩ :=
    processBlock_spec slot b rng
  exact ⟨out, rng2, h1, h12⟩

end SolanaListener
